import Mathlib

/-!
Verification of the hierarchical program-configuration engine of
Seann-Moser/hypr-config-manager.

The Go source is shallowly embedded: the nested `HyprProgramConfig` tree
becomes a nested inductive type, slices become lists, in-place slice
mutation becomes functional rebuilding (the Go functions return the
mutated slice through the shared backing array; here they return it as a
value), `time.Time` stamps become opaque `Int` tokens, and the MongoDB
collections touched by the repository operations become explicit record
states threaded through the operations.
-/

set_option maxHeartbeats 1000000

namespace HyprCfg

/-- Embeds `FileContent` (src/unnamed/part_000): raw data bytes are kept as a
`String` (the validator converts them with `string(content.Data)` anyway),
plus the content-type tag, optional header mapping and integrity hash. -/
structure FileContent where
  data : String
  fileType : String
  headers : List (String × String)
  hash : String
deriving DecidableEq, Repr

/-- Embeds `HyprProgramConfig` (src/unnamed/part_000): one program's
configuration node.  `SubConfigs []*HyprProgramConfig` becomes a list of
child nodes (pointer indirection is dropped; the Go code never shares a
node between two parents). -/
inductive HyprProgramConfig : Type where
  | mk (id : String) (title : String) (program : String) (installPath : String)
       (args : List String) (envVars : List (String × String))
       (fileContent : FileContent) (dependencies : List String)
       (platform : List String) (optionalFlag : Bool)
       (updatedTimestamp : Int) (createdTimestamp : Int)
       (subConfigs : List HyprProgramConfig)

def HyprProgramConfig.id : HyprProgramConfig → String
  | .mk i _ _ _ _ _ _ _ _ _ _ _ _ => i

def HyprProgramConfig.title : HyprProgramConfig → String
  | .mk _ t _ _ _ _ _ _ _ _ _ _ _ => t

def HyprProgramConfig.program : HyprProgramConfig → String
  | .mk _ _ p _ _ _ _ _ _ _ _ _ _ => p

def HyprProgramConfig.fileContent : HyprProgramConfig → FileContent
  | .mk _ _ _ _ _ _ fc _ _ _ _ _ _ => fc

def HyprProgramConfig.updatedTimestamp : HyprProgramConfig → Int
  | .mk _ _ _ _ _ _ _ _ _ _ ut _ _ => ut

def HyprProgramConfig.createdTimestamp : HyprProgramConfig → Int
  | .mk _ _ _ _ _ _ _ _ _ _ _ ct _ => ct

def HyprProgramConfig.subConfigs : HyprProgramConfig → List HyprProgramConfig
  | .mk _ _ _ _ _ _ _ _ _ _ _ _ sub => sub

/-- Replace only the child sequence of a node (models Go's in-place
`node.SubConfigs = ...` assignment). -/
def HyprProgramConfig.withSubConfigs : HyprProgramConfig → List HyprProgramConfig → HyprProgramConfig
  | .mk i t p ip ar ev fc dep pl op ut ct _, sub => .mk i t p ip ar ev fc dep pl op ut ct sub

/-- Embeds `Author` (src/unnamed/part_000). -/
structure Author where
  userName : String
  profilePicture : String
  url : String
deriving DecidableEq, Repr

/-- Embeds `HyprConfig` (src/unnamed/part_000): the root aggregate document. -/
structure HyprConfig where
  id : String
  title : String
  description : String
  author : Author
  programConfigs : List HyprProgramConfig
  galleryPictures : List String
  ownerID : String
  «private» : Bool
  likes : Int
  version : String
  tags : List String
  createdTimestamp : Int
  updatedTimestamp : Int

/-- Embeds `ConfigSearchFilters` (src/unnamed/part_000). -/
structure ConfigSearchFilters where
  query : String
  tags : List String
  program : String
  ownerID : String
  «private» : Option Bool
  updatedFrom : Option Int
  updatedTo : Option Int
deriving DecidableEq, Repr

/-- The resolved caller identity consumed from the sessions library
(`session.UserSessionData`): only the fields the embedded code reads. -/
structure UserSessionData where
  userID : String
  roles : List String
deriving DecidableEq, Repr

/-! ## Tree mutator (src/pkg/hyprconfig/client.go) -/

/-- Embeds `insertIntoNested` (client.go): recursively searches `list` for a
node whose identity equals `parentID` and appends `newProg` to its child
sequence; returns the updated list and whether an insertion happened.  The
Go function mutates the slice in place and returns only the flag; the list
result makes the mutation explicit. -/
def insertIntoNested :
    List HyprProgramConfig → HyprProgramConfig → String → List HyprProgramConfig × Bool
  | [], _, _ => ([], false)
  | .mk i t p ip ar ev fc dep pl op ut ct sub :: rest, newProg, parentID =>
    if i = parentID then
      (.mk i t p ip ar ev fc dep pl op ut ct (sub ++ [newProg]) :: rest, true)
    else
      let inner := insertIntoNested sub newProg parentID
      if inner.2 then
        (.mk i t p ip ar ev fc dep pl op ut ct inner.1 :: rest, true)
      else
        let outer := insertIntoNested rest newProg parentID
        (.mk i t p ip ar ev fc dep pl op ut ct sub :: outer.1, outer.2)

/-- Embeds `insertIntoSubConfig` (client.go): same search as
`insertIntoNested` but over the top-level `[]HyprProgramConfig` slice,
delegating to `insertIntoNested` for children. -/
def insertIntoSubConfig :
    List HyprProgramConfig → HyprProgramConfig → String → List HyprProgramConfig × Bool
  | [], _, _ => ([], false)
  | .mk i t p ip ar ev fc dep pl op ut ct sub :: rest, newProg, parentID =>
    if i = parentID then
      (.mk i t p ip ar ev fc dep pl op ut ct (sub ++ [newProg]) :: rest, true)
    else
      let inner := insertIntoNested sub newProg parentID
      if inner.2 then
        (.mk i t p ip ar ev fc dep pl op ut ct inner.1 :: rest, true)
      else
        let outer := insertIntoSubConfig rest newProg parentID
        (.mk i t p ip ar ev fc dep pl op ut ct sub :: outer.1, outer.2)

/-- Embeds `filterSubConfigs` (client.go): for each node, first recursively
filter its children, then drop the node itself when its identity equals
`targetID`. -/
def filterSubConfigs : List HyprProgramConfig → String → List HyprProgramConfig
  | [], _ => []
  | .mk i t p ip ar ev fc dep pl op ut ct sub :: rest, targetID =>
    let sub' := filterSubConfigs sub targetID
    if i = targetID then filterSubConfigs rest targetID
    else .mk i t p ip ar ev fc dep pl op ut ct sub' :: filterSubConfigs rest targetID

/-- Embeds `removeNestedProgramConfig` (client.go): identical walk to
`filterSubConfigs` over the top-level slice, delegating to
`filterSubConfigs` for children. -/
def removeNestedProgramConfig : List HyprProgramConfig → String → List HyprProgramConfig
  | [], _ => []
  | .mk i t p ip ar ev fc dep pl op ut ct sub :: rest, targetID =>
    let sub' := filterSubConfigs sub targetID
    if i = targetID then removeNestedProgramConfig rest targetID
    else .mk i t p ip ar ev fc dep pl op ut ct sub' :: removeNestedProgramConfig rest targetID

/-- Embeds `extractProgramConfigNested` (client.go): depth-first search that
detaches the first node whose identity equals `progID`, returning the list
rebuilt so far and the detached node.  Note the Go code `return newList,
&item` returns only the prefix accumulated before the match, so the
siblings after the removal point are dropped from the returned list. -/
def extractProgramConfigNested :
    List HyprProgramConfig → String → List HyprProgramConfig × Option HyprProgramConfig
  | [], _ => ([], none)
  | .mk i t p ip ar ev fc dep pl op ut ct sub :: rest, progID =>
    if i = progID then ([], some (.mk i t p ip ar ev fc dep pl op ut ct sub))
    else
      let inner := extractProgramConfigNested sub progID
      match inner.2 with
      | some removed => ([.mk i t p ip ar ev fc dep pl op ut ct inner.1], some removed)
      | none =>
        let outer := extractProgramConfigNested rest progID
        (.mk i t p ip ar ev fc dep pl op ut ct sub :: outer.1, outer.2)

/-- Embeds `extractProgramConfig` (client.go): top-level variant of
`extractProgramConfigNested`. -/
def extractProgramConfig :
    List HyprProgramConfig → String → List HyprProgramConfig × Option HyprProgramConfig
  | [], _ => ([], none)
  | .mk i t p ip ar ev fc dep pl op ut ct sub :: rest, progID =>
    if i = progID then ([], some (.mk i t p ip ar ev fc dep pl op ut ct sub))
    else
      let inner := extractProgramConfigNested sub progID
      match inner.2 with
      | some removed => ([.mk i t p ip ar ev fc dep pl op ut ct inner.1], some removed)
      | none =>
        let outer := extractProgramConfig rest progID
        (.mk i t p ip ar ev fc dep pl op ut ct sub :: outer.1, outer.2)

/-- Embeds `updateSubConfigRecursive` (client.go): depth-first search for
`progID`; on the first match the replacement payload is installed with its
identity, creation timestamp and child sequence forced to the matched
node's current values and its updated timestamp forced to `now`. -/
def updateSubConfigRecursive :
    List HyprProgramConfig → String → HyprProgramConfig → Int → List HyprProgramConfig × Bool
  | [], _, _, _ => ([], false)
  | (.mk i t p ip ar ev fc dep pl op ut ct sub : HyprProgramConfig) :: rest, progID, updates, now =>
    if i = progID then
      (match updates with
       | .mk _ t₂ p₂ ip₂ ar₂ ev₂ fc₂ dep₂ pl₂ op₂ _ _ _ =>
         (.mk progID t₂ p₂ ip₂ ar₂ ev₂ fc₂ dep₂ pl₂ op₂ now ct sub :: rest, true))
    else
      let inner := updateSubConfigRecursive sub progID updates now
      if inner.2 then
        (.mk i t p ip ar ev fc dep pl op ut ct inner.1 :: rest, true)
      else
        let outer := updateSubConfigRecursive rest progID updates now
        (.mk i t p ip ar ev fc dep pl op ut ct inner.1 :: outer.1, outer.2)

/-- Embeds `updateProgramConfigRecursive` (client.go): top-level variant of
`updateSubConfigRecursive`, delegating to it for children. -/
def updateProgramConfigRecursive :
    List HyprProgramConfig → String → HyprProgramConfig → Int → List HyprProgramConfig × Bool
  | [], _, _, _ => ([], false)
  | (.mk i t p ip ar ev fc dep pl op ut ct sub : HyprProgramConfig) :: rest, progID, updates, now =>
    if i = progID then
      (match updates with
       | .mk _ t₂ p₂ ip₂ ar₂ ev₂ fc₂ dep₂ pl₂ op₂ _ _ _ =>
         (.mk progID t₂ p₂ ip₂ ar₂ ev₂ fc₂ dep₂ pl₂ op₂ now ct sub :: rest, true))
    else
      let inner := updateSubConfigRecursive sub progID updates now
      if inner.2 then
        (.mk i t p ip ar ev fc dep pl op ut ct inner.1 :: rest, true)
      else
        let outer := updateProgramConfigRecursive rest progID updates now
        (.mk i t p ip ar ev fc dep pl op ut ct inner.1 :: outer.1, outer.2)

/-! ## Specification-side helpers (formalisation devices, not from the source) -/

/-- `true` when some node at any depth of the forest has the given identity. -/
def containsID : List HyprProgramConfig → String → Bool
  | [], _ => false
  | .mk i _ _ _ _ _ _ _ _ _ _ _ sub :: rest, x =>
    if i = x then true else containsID sub x || containsID rest x

/-- Specification-side removal, written from the spec's words: delete every
node whose identity is the target together with its entire subtree; every
other node is kept in its original sibling order, with its own children
treated recursively. -/
def removeSpecNodes : List HyprProgramConfig → String → List HyprProgramConfig
  | [], _ => []
  | .mk i t p ip ar ev fc dep pl op ut ct sub :: rest, x =>
    if i = x then removeSpecNodes rest x
    else .mk i t p ip ar ev fc dep pl op ut ct (removeSpecNodes sub x) :: removeSpecNodes rest x

/-- Specification-side combinator: replace the first node (depth-first,
pre-order) whose identity equals `pid` by `f` applied to it, leaving every
other node untouched; the flag reports whether a match was found. -/
def replaceFirstNode (f : HyprProgramConfig → HyprProgramConfig) :
    List HyprProgramConfig → String → List HyprProgramConfig × Bool
  | [], _ => ([], false)
  | .mk i t p ip ar ev fc dep pl op ut ct sub :: rest, pid =>
    if i = pid then (f (.mk i t p ip ar ev fc dep pl op ut ct sub) :: rest, true)
    else
      let inner := replaceFirstNode f sub pid
      if inner.2 then (.mk i t p ip ar ev fc dep pl op ut ct inner.1 :: rest, true)
      else
        let outer := replaceFirstNode f rest pid
        (.mk i t p ip ar ev fc dep pl op ut ct sub :: outer.1, outer.2)

/-! ## Repository operations on the stored aggregate (src/pkg/hyprconfig/client.go)

Each Mongo-backed operation is modelled as a function from the stored
aggregate document (already loaded and permission-checked) to the new
stored document plus an optional error.  The Go methods issue a single
`UpdateByID` write at the end of the happy path; every error return
happens before that write, so an error result leaves the stored document
exactly as it was. -/

/-- Force only the updated timestamp of a node (Go's
`removed.UpdatedTimestamp = now` in `MoveProgramConfig`). -/
def HyprProgramConfig.withUpdatedTimestamp : HyprProgramConfig → Int → HyprProgramConfig
  | .mk i t p ip ar ev fc dep pl op _ ct sub, now => .mk i t p ip ar ev fc dep pl op now ct sub

/-- Embeds the mutation core of `MoveProgramConfig` (client.go): extract the
target node, refresh its updated timestamp, re-insert it at top level or
under the new parent, and persist; each error path returns before the
single write, leaving the stored aggregate untouched. -/
def MoveProgramConfig (cfg : HyprConfig) (progID : String) (newParentID : Option String)
    (now : Int) : HyprConfig × Option String :=
  let ext := extractProgramConfig cfg.programConfigs progID
  match ext.2 with
  | none => (cfg, some ("program config with ID " ++ progID ++ " not found"))
  | some removed =>
    let removed := removed.withUpdatedTimestamp now
    match newParentID with
    | none =>
      ({ cfg with programConfigs := ext.1 ++ [removed], updatedTimestamp := now }, none)
    | some parent =>
      if parent = "" then
        ({ cfg with programConfigs := ext.1 ++ [removed], updatedTimestamp := now }, none)
      else
        let ins := insertIntoSubConfig ext.1 removed parent
        if ins.2 then
          ({ cfg with programConfigs := ins.1, updatedTimestamp := now }, none)
        else
          (cfg, some ("parent program config with ID " ++ parent ++ " not found"))

/-- Embeds the mutation core of `UpdateProgramConfig` (client.go): run the
recursive update; on failure report not-found without writing, on success
persist the updated tree and refresh the aggregate timestamp. -/
def UpdateProgramConfigOp (cfg : HyprConfig) (progID : String)
    (updates : HyprProgramConfig) (now : Int) : HyprConfig × Option String :=
  let res := updateProgramConfigRecursive cfg.programConfigs progID updates now
  if res.2 then
    ({ cfg with programConfigs := res.1, updatedTimestamp := now }, none)
  else
    (cfg, some ("program config with ID " ++ progID ++ " not found"))

/-! ## Favorites (src/pkg/hyprconfig/client.go) -/

/-- Joint state of the favorites collection and the per-aggregate like
counters: `favorites` is the list of (user identity, aggregate identity)
favorite records, `likes` maps each existing aggregate identity to its
like counter (aggregates absent from the store have no entry). -/
structure FavoritesState where
  favorites : List (String × String)
  likes : List (String × Int)

/-- `UpdateByID` with a `$inc` on `likes`: adds `delta` to the counter of
the matching aggregate document; a missing document is left unmatched (no
upsert), so nothing changes. -/
def incLikes : List (String × Int) → String → Int → List (String × Int)
  | [], _, _ => []
  | (cid, n) :: rest, configID, delta =>
    if cid = configID then (cid, n + delta) :: rest
    else (cid, n) :: incLikes rest configID delta

/-- Embeds `FavoriteConfig` (client.go): if the (user, aggregate) pair is
already favorited, return success without touching anything; otherwise
insert the favorite record and increment the aggregate's like counter. -/
def FavoriteConfig (st : FavoritesState) (userID configID : String) : FavoritesState :=
  if (userID, configID) ∈ st.favorites then st
  else
    { favorites := st.favorites ++ [(userID, configID)]
      likes := incLikes st.likes configID 1 }

/-- `DeleteOne`: remove the first record matching the pair, reporting how
many records were deleted (0 or 1). -/
def deleteOneFavorite : List (String × String) → String → String → List (String × String) × Nat
  | [], _, _ => ([], 0)
  | (u, c) :: rest, userID, configID =>
    if u = userID ∧ c = configID then (rest, 1)
    else
      let r := deleteOneFavorite rest userID configID
      ((u, c) :: r.1, r.2)

/-- Embeds `UnfavoriteConfig` (client.go): delete the favorite record; if
nothing was deleted return success without touching the counter, otherwise
decrement the aggregate's like counter. -/
def UnfavoriteConfig (st : FavoritesState) (userID configID : String) : FavoritesState :=
  let r := deleteOneFavorite st.favorites userID configID
  if r.2 = 0 then st
  else { favorites := r.1, likes := incLikes st.likes configID (-1) }

/-- Number of favorite records referencing the given aggregate. -/
def countFavorites (favs : List (String × String)) (configID : String) : Nat :=
  (favs.filter (fun f => f.2 = configID)).length

/-- The denormalisation invariant: every stored aggregate's like counter
equals the number of favorite records referencing it. -/
def likesInvariant (st : FavoritesState) : Bool :=
  st.likes.all (fun e => e.2 = (countFavorites st.favorites e.1 : Int))

/-! ## Version bump and field updates (src/pkg/hyprconfig/client.go) -/

/-- Embeds `strconv.Atoi`: optional sign, then one or more ASCII digits,
value within the signed 64-bit range; anything else is a parse error. -/
def goAtoi (s : String) : Option Int :=
  let p : Bool × List Char :=
    match s.toList with
    | '+' :: rest => (false, rest)
    | '-' :: rest => (true, rest)
    | rest => (false, rest)
  if p.2 = [] ∨ ¬ p.2.all (fun c => c.isDigit) then none
  else
    let n : Nat := p.2.foldl (fun acc c => acc * 10 + (c.toNat - 48)) 0
    let v : Int := if p.1 then -(n : Int) else (n : Int)
    if v < -(2 ^ 63) ∨ (2 ^ 63 - 1 : Int) < v then none else some v

/-- `strings.Split(v, ".")` character by character: cut at every dot,
keeping empty segments. -/
def splitDotAux : List Char → List Char → List (List Char)
  | acc, [] => [acc.reverse]
  | acc, c :: rest =>
    if c = '.' then acc.reverse :: splitDotAux [] rest
    else splitDotAux (c :: acc) rest

/-- `strings.Split(v, ".")`. -/
def goSplitDots (v : String) : List String := (splitDotAux [] v.toList).map String.mk

/-- Embeds `bumpPatchVersion` (client.go): split on dots; with exactly three
components, parse the patch (defaulting to 0 on a parse error), increment
it and rebuild; otherwise fall back to "0.0.1". -/
def bumpPatchVersion (v : String) : String :=
  let parts := goSplitDots v
  if parts.length ≠ 3 then "0.0.1"
  else
    let patch := match goAtoi (parts.getD 2 "") with
      | some n => n
      | none => 0
    parts.getD 0 "" ++ "." ++ parts.getD 1 "" ++ "." ++ toString (patch + 1)

/-- BSON values appearing in the `bson.M` field sets built by the embedded
code. -/
inductive BVal : Type where
  | str (s : String)
  | boolean (b : Bool)
  | strs (l : List String)
  | progs (l : List HyprProgramConfig)
  | time (t : Int)

/-- First binding of a key in a `bson.M` field set (keys are unique: the Go
maps are written with distinct literal keys). -/
def bsonLookup : List (String × BVal) → String → Option BVal
  | [], _ => none
  | (k, v) :: rest, key => if k = key then some v else bsonLookup rest key

/-- Go map assignment `m[k] = v`: overwrite the existing binding or append. -/
def bsonSet : List (String × BVal) → String → BVal → List (String × BVal)
  | [], key, v => [(key, v)]
  | (k, w) :: rest, key, v =>
    if k = key then (k, v) :: rest else (k, w) :: bsonSet rest key v

/-- Go `delete(m, k)`. -/
def bsonDelete : List (String × BVal) → String → List (String × BVal)
  | [], _ => []
  | (k, w) :: rest, key =>
    if k = key then bsonDelete rest key else (k, w) :: bsonDelete rest key

/-- Embeds the field-set preparation of `ConfigManagerMongo.UpdateConfig`
(client.go lines 217-228): bump the stored version into the update set,
refresh the updated timestamp, and strip the immutable fields before the
`$set` write. -/
def prepareUpdateSet (existing : HyprConfig) (updates : List (String × BVal)) (now : Int) :
    List (String × BVal) :=
  let u := bsonSet updates "version" (.str (bumpPatchVersion existing.version))
  let u := bsonSet u "updated_timestamp" (.time now)
  let u := bsonDelete u "_id"
  let u := bsonDelete u "owner_id"
  let u := bsonDelete u "likes"
  let u := bsonDelete u "created_timestamp"
  bsonDelete u "program_configs"

/-! ## Whole-config update handler (src/pkg/hchandler/handler.go) -/

/-- Embeds `StringSlicesEqual` (util.go): equality of the multisets of
strings, computed through occurrence-count maps. -/
def countOcc (l : List String) (s : String) : Nat := (l.filter (fun x => x = s)).length

/-- Embeds `StringSlicesEqual` (util.go): the two occurrence maps have the
same key set and agree on every key. -/
def StringSlicesEqual (a b : List String) : Bool :=
  if a = [] ∧ b = [] then true
  else
    decide ((a.dedup).length = (b.dedup).length) &&
    (a.dedup).all (fun k => b.dedup.contains k ∧ countOcc a k = countOcc b k)

/-- Embeds the changed-field computation of `Handler.UpdateConfig`
(handler.go lines 554-570): build the `bson.M` field set sent to the
repository.  Note the source writes `updatesBody.Title` into the
`"private"` key. -/
def buildUpdateFields (updatesBody existing : HyprConfig) : List (String × BVal) :=
  (if updatesBody.title ≠ "" ∧ updatesBody.title ≠ existing.title then
    [("title", BVal.str updatesBody.title)] else [])
  ++ (if updatesBody.description ≠ "" ∧ updatesBody.description ≠ existing.description then
    [("description", BVal.str updatesBody.description)] else [])
  ++ (if updatesBody.programConfigs.length > 0 then
    [("program_configs", BVal.progs updatesBody.programConfigs)] else [])
  ++ (if updatesBody.private ≠ existing.private then
    [("private", BVal.str updatesBody.title)] else [])
  ++ (if updatesBody.tags.length > 0 ∧ ¬ StringSlicesEqual updatesBody.tags existing.tags then
    [("tags", BVal.strs updatesBody.tags)] else [])

/-! ## Regular-expression machinery for the extractor (src/pkg/hyprconfig/util.go)

The extractor uses Go's `regexp` package on three fixed patterns.  Each
pattern is a concatenation of per-character classes, literals, starred
classes and one-or-more capture groups, embedded here as a token list
interpreted by a backtracking matcher with Go's leftmost-first (Perl
preference) semantics: greedy repetition, earlier alternatives first,
scanning start positions left to right with non-overlapping matches. -/

/-- Go regexp `\s`: `[\t\n\f\r ]`. -/
def isRegexSpace (c : Char) : Bool :=
  c = '\t' ∨ c = '\n' ∨ c = '\x0c' ∨ c = '\r' ∨ c = ' '

/-- Go regexp `\w`: `[0-9A-Za-z_]`. -/
def isWordChar (c : Char) : Bool := c.isAlphanum ∨ c = '_'

/-- `unicode.IsSpace` restricted to Latin-1 (all the Go code ever feeds it):
`'\t' '\n' '\v' '\f' '\r' ' ' U+0085 U+00A0`. -/
def unicodeIsSpace (c : Char) : Bool :=
  c = ' ' ∨ c = '\t' ∨ c = '\n' ∨ c = '\x0b' ∨ c = '\x0c' ∨ c = '\r' ∨ c = '\x85' ∨ c = '\xa0'

/-- One token of a compiled pattern: a literal character, a single-character
class, a greedy starred class, or a greedy one-or-more capture group. -/
inductive Tok : Type where
  | lit (c : Char)
  | one (p : Char → Bool)
  | star (p : Char → Bool)
  | cap (p : Char → Bool)

mutual

/-- Backtracking matcher: match the token list against a prefix of the
input, returning the remaining input and the captured groups in order.
Greedy repetitions prefer the longest extension first, exactly the
preference order of Go's leftmost-first matching.  The fuel argument makes
the recursion structural so the kernel can evaluate it; every call strictly
decreases `input.length + toks.length`, so fuel
`input.length + toks.length + 1` never runs out. -/
def matchToksF : Nat → List Tok → List Char → Option (List Char × List (List Char))
  | 0, _, _ => none
  | _ + 1, [], s => some (s, [])
  | _ + 1, .lit _ :: _, [] => none
  | fuel + 1, .lit c :: ts, d :: s => if d = c then matchToksF fuel ts s else none
  | _ + 1, .one _ :: _, [] => none
  | fuel + 1, .one p :: ts, d :: s => if p d then matchToksF fuel ts s else none
  | fuel + 1, .star _ :: ts, [] => matchToksF fuel ts []
  | fuel + 1, .star p :: ts, d :: s =>
    if p d then
      match matchToksF fuel (.star p :: ts) s with
      | some r => some r
      | none => matchToksF fuel ts (d :: s)
    else matchToksF fuel ts (d :: s)
  | _ + 1, .cap _ :: _, [] => none
  | fuel + 1, .cap p :: ts, d :: s => if p d then matchCapF fuel p ts [d] s else none

/-- Greedy extension of a one-or-more capture group: keep absorbing matching
characters (preferring longer captures), then hand the reversed accumulator
over as the next capture. -/
def matchCapF (fuel : Nat) (p : Char → Bool) (ts : List Tok) (acc : List Char) :
    List Char → Option (List Char × List (List Char))
  | [] =>
    (match fuel with
     | 0 => none
     | f + 1 => (matchToksF f ts []).map (fun r => (r.1, acc.reverse :: r.2)))
  | d :: s =>
    (match fuel with
     | 0 => none
     | f + 1 =>
       if p d then
         match matchCapF f p ts (d :: acc) s with
         | some r => some r
         | none => (matchToksF f ts (d :: s)).map (fun r => (r.1, acc.reverse :: r.2))
       else (matchToksF f ts (d :: s)).map (fun r => (r.1, acc.reverse :: r.2)))

end

/-- The matcher with enough fuel for its input. -/
def matchToks (toks : List Tok) (s : List Char) : Option (List Char × List (List Char)) :=
  matchToksF (s.length + toks.length + 1) toks s

/-- `FindAllStringSubmatch`: scan start positions left to right; at each
match record the matched text and captures and continue after the match
(non-overlapping); on failure advance one character. -/
def findAllFrom (toks : List Tok) : List Char → Nat → List (List Char × List (List Char))
  | _, 0 => []
  | s, fuel + 1 =>
    match matchToks toks s with
    | some r =>
      let consumed := s.length - r.1.length
      if consumed = 0 then
        match s with
        | [] => []
        | _ :: s' => findAllFrom toks s' fuel
      else (s.take consumed, r.2) :: findAllFrom toks r.1 fuel
    | none =>
      match s with
      | [] => []
      | _ :: s' => findAllFrom toks s' fuel

def findAll (toks : List Tok) (s : List Char) : List (List Char × List (List Char)) :=
  findAllFrom toks s (s.length + 1)

/-- Compile a literal string into literal tokens. -/
def lits (s : String) : List Tok := s.toList.map Tok.lit

/-- The pattern `#*\s*exec-once\s*=\s*([^\n]+)` (util.go). -/
def execOncePattern : List Tok :=
  [Tok.star (fun c => c = '#'), Tok.star isRegexSpace] ++ lits "exec-once"
  ++ [Tok.star isRegexSpace, Tok.lit '=', Tok.star isRegexSpace,
      Tok.cap (fun c => ¬ c = '\n')]

/-- The pattern `#*\s*exec\s*[=,]\s*([^\n]+)` (util.go). -/
def execPattern : List Tok :=
  [Tok.star (fun c => c = '#'), Tok.star isRegexSpace] ++ lits "exec"
  ++ [Tok.star isRegexSpace, Tok.one (fun c => c = '=' ∨ c = ','), Tok.star isRegexSpace,
      Tok.cap (fun c => ¬ c = '\n')]

/-- The pattern `\$(\w+)\s*=\s*(\S+)` (util.go, `ParseKeyValuePairs`). -/
def kvPattern : List Tok :=
  [Tok.lit '$', Tok.cap isWordChar, Tok.star isRegexSpace, Tok.lit '=',
   Tok.star isRegexSpace, Tok.cap (fun c => ¬ isRegexSpace c)]

/-! ## Extractor (src/pkg/hyprconfig/util.go) -/

/-- Go map assignment for the variable table: overwrite or append. -/
def insertKV : List (String × String) → String → String → List (String × String)
  | [], k, v => [(k, v)]
  | (k', v') :: rest, k, v =>
    if k' = k then (k, v) :: rest else (k', v') :: insertKV rest k v

/-- Go map lookup for the variable table. -/
def lookupKV : List (String × String) → String → Option String
  | [], _ => none
  | (k', v') :: rest, k => if k' = k then some v' else lookupKV rest k

/-- Embeds `ParseKeyValuePairs` (util.go): collect `$name = value` pairs
into a map keyed by `"$" ++ name`; a later assignment overwrites. -/
def ParseKeyValuePairs (input : String) : List (String × String) :=
  (findAll kvPattern input.toList).foldl
    (fun m md =>
      insertKV m ("$" ++ String.mk (md.2.getD 0 [])) (String.mk (md.2.getD 1 [])))
    []

/-- Embeds the package-level `ignore` set (util.go). -/
def ignoreList : List String := ["va11-popup", "va11-confirm"]

/-- Modelled from the spec: the repository's `utils.DeduplicateStrings`
(pkg/utils is not under src/) — "Deduplicate while preserving first-seen
order; return the resulting sequence." -/
def dedupAux : List String → List String → List String
  | _, [] => []
  | seen, x :: rest =>
    if seen.contains x then dedupAux seen rest
    else x :: dedupAux (x :: seen) rest

/-- Modelled from the spec: deduplication preserving first-seen order. -/
def DeduplicateStrings (l : List String) : List String := dedupAux [] l

/-- `strings.FieldsFunc`: split at separator characters, dropping empty
segments. -/
def fieldsFuncAux (p : Char → Bool) : List Char → List Char → List (List Char)
  | acc, [] => if acc = [] then [] else [acc.reverse]
  | acc, c :: rest =>
    if p c then
      if acc = [] then fieldsFuncAux p [] rest
      else acc.reverse :: fieldsFuncAux p [] rest
    else fieldsFuncAux p (c :: acc) rest

def fieldsFunc (s : List Char) (p : Char → Bool) : List (List Char) := fieldsFuncAux p [] s

/-- `strings.Fields`: split at Unicode whitespace. -/
def goFields (s : List Char) : List (List Char) := fieldsFunc s unicodeIsSpace

/-- `strings.TrimSpace`. -/
def trimSpaceL (s : List Char) : List Char :=
  ((s.dropWhile unicodeIsSpace).reverse.dropWhile unicodeIsSpace).reverse

def trimSpace (s : String) : String := String.mk (trimSpaceL s.toList)

/-- Inner loop of `ExtractExecOnceCommands` for one regex match: skip the
match when its full text carries a comment marker, split the captured
payload on process separators, take each segment's first field, substitute
it through the variable table, drop ignored helper names, and append. -/
def extractFromMatch (pairs : List (String × String)) (commands : List String)
    (m : List Char × List (List Char)) : List String :=
  if m.1.contains '#' then commands
  else
    let parts := fieldsFunc (m.2.getD 0 []) (fun c => c = '&' ∨ c = '\n' ∨ c = ';')
    parts.foldl
      (fun acc part =>
        match goFields (trimSpaceL part) with
        | [] => acc
        | p0 :: _ =>
          match lookupKV pairs (String.mk p0) with
          | some v =>
            if ignoreList.contains (trimSpace v) then acc
            else acc ++ [trimSpace v]
          | none =>
            if ignoreList.contains (trimSpace (String.mk p0)) then acc
            else acc ++ [trimSpace (String.mk p0)])
      commands

/-- Embeds `ExtractExecOnceCommands` (util.go): parse the variable table,
run both launch-directive patterns over the input, collect candidate
program names, and deduplicate preserving first-seen order. -/
def ExtractExecOnceCommands (input : String) : List String :=
  let pairs := ParseKeyValuePairs input
  let commands :=
    [execOncePattern, execPattern].foldl
      (fun acc re => (findAll re input.toList).foldl (extractFromMatch pairs) acc)
      []
  DeduplicateStrings commands

/-! ## Search-predicate builder (src/pkg/hyprconfig/util.go) -/

/-- The `bson.M` query predicate produced by `buildSearchFilter`, as an
abstract syntax tree mirroring the document structure the Go code builds. -/
inductive SearchFilter : Type where
  | conj (fs : List SearchFilter)
  | disj (fs : List SearchFilter)
  | titleRegex (q : String)
  | descriptionRegex (q : String)
  | tagsRegex (q : String)
  | tagsAll (ts : List String)
  | programEq (p : String)
  | ownerEq (o : String)
  | privateEq (b : Bool)
  | updatedRange (lo hi : Option Int)

def listStartsWith : List Char → List Char → Bool
  | [], _ => true
  | _ :: _, [] => false
  | a :: as, b :: bs => a = b && listStartsWith as bs

def listIsInfixOf (needle : List Char) : List Char → Bool
  | [] => decide (needle = [])
  | c :: rest => listStartsWith needle (c :: rest) || listIsInfixOf needle rest

/-- `$regex` with the `i` option on the plain query strings the code passes
through: case-insensitive substring containment. -/
def ciContains (s q : String) : Bool := listIsInfixOf q.toLower.toList s.toLower.toList

mutual

/-- Evaluation of the query predicate against one aggregate document,
following MongoDB semantics: `$and`/`$or` over subclauses, `$regex` on a
string field, `$regex` distributing over an array field, `$all` on tags,
dotted-path equality on any top-level program entry, field equality, and
`$gte`/`$lte` bounds. -/
def filterMatches (c : HyprConfig) : SearchFilter → Bool
  | .conj fs => allFiltersMatch c fs
  | .disj fs => anyFilterMatches c fs
  | .titleRegex q => ciContains c.title q
  | .descriptionRegex q => ciContains c.description q
  | .tagsRegex q => c.tags.any (fun t => ciContains t q)
  | .tagsAll ts => ts.all (fun t => c.tags.contains t)
  | .programEq p => c.programConfigs.any (fun n => n.program = p)
  | .ownerEq o => c.ownerID = o
  | .privateEq b => c.private = b
  | .updatedRange lo hi =>
    (match lo with | some a => decide (a ≤ c.updatedTimestamp) | none => true) &&
    (match hi with | some b => decide (c.updatedTimestamp ≤ b) | none => true)

def allFiltersMatch (c : HyprConfig) : List SearchFilter → Bool
  | [] => true
  | f :: fs => filterMatches c f && allFiltersMatch c fs

def anyFilterMatches (c : HyprConfig) : List SearchFilter → Bool
  | [] => false
  | f :: fs => filterMatches c f || anyFilterMatches c fs

end

/-- Embeds `buildSearchFilter` (util.go): AND of the present filters,
conjoined with the mandatory visibility OR-clause `private == false OR
owner == caller` (owner disjunct omitted when no caller identity). -/
def buildSearchFilter (filters : ConfigSearchFilters) (user : Option UserSessionData) :
    SearchFilter :=
  let andParts : List SearchFilter :=
    (if filters.query ≠ "" then
      [SearchFilter.disj [SearchFilter.titleRegex filters.query,
                          SearchFilter.descriptionRegex filters.query,
                          SearchFilter.tagsRegex filters.query]]
     else [])
    ++ (if filters.tags.length > 0 then [SearchFilter.tagsAll filters.tags] else [])
    ++ (if filters.program ≠ "" then [SearchFilter.programEq filters.program] else [])
    ++ (if filters.ownerID ≠ "" then [SearchFilter.ownerEq filters.ownerID] else [])
    ++ (match filters.private with
        | some b => [SearchFilter.privateEq b]
        | none => [])
    ++ (if filters.updatedFrom.isSome ∨ filters.updatedTo.isSome then
        [SearchFilter.updatedRange filters.updatedFrom filters.updatedTo]
       else [])
  let orClause : List SearchFilter :=
    [SearchFilter.privateEq false]
    ++ (match user with
        | some u => [SearchFilter.ownerEq u.userID]
        | none => [])
  SearchFilter.conj
    ([SearchFilter.disj orClause]
     ++ (if andParts.length > 0 then [SearchFilter.conj andParts] else []))

/-! ## Tree validator (src/unnamed/part_000) -/

/-- Embeds the `validPrograms` static whitelist (src/unnamed/part_000). -/
def validProgramsList : List String :=
  ["hyprland", "hypridle", "hyprpaper", "hyprlock", "hypr-u",
   "kitty", "wofi", "alacritty", "foot", "wezterm", "rofi", "wayland-protocols",
   "waybar", "eww", "swaync",
   "sway",
   "clipse", "mako", "dunst", "grim", "slurp", "swappy", "pipewire", "pulseaudio",
   "elephant", "walker"]

/-- The allow-list gateway (`checkProgramExists` contract): `none` means the
program is confirmed, `some msg` is a lookup failure or "not found". -/
abbrev Gateway : Type := String → Option String

/-- First extracted command failing the whitelist-or-gateway check, with the
error the Go loop returns for it. -/
def firstBadCommand (gw : Gateway) : List String → Option String
  | [] => none
  | cmd :: rest =>
    if ¬ validProgramsList.contains cmd ∧ (gw cmd).isSome then
      some ("invalid or unsupported program name: " ++ cmd)
    else firstBadCommand gw rest

mutual

/-- Embeds `HyprProgramConfig.Validate` (src/unnamed/part_000): the declared
program must be statically whitelisted or confirmed by the gateway; when
the node carries file data and an integrity hash, every extracted launch
command is checked the same way; then children are validated in order with
1-based index annotation, first failure aborting the walk. -/
def pcValidate (gw : Gateway) : HyprProgramConfig → Option String
  | .mk _ _ p _ _ _ fc _ _ _ _ _ sub =>
    if ¬ validProgramsList.contains p ∧ (gw p).isSome then
      some ("invalid or unsupported program name: " ++ p)
    else
      match (if 0 < fc.data.length ∧ fc.hash ≠ "" then
              firstBadCommand gw (ExtractExecOnceCommands fc.data)
             else none) with
      | some e => some e
      | none => validateSubList gw sub 1

def validateSubList (gw : Gateway) : List HyprProgramConfig → Nat → Option String
  | [], _ => none
  | sc :: rest, idx =>
    match pcValidate gw sc with
    | some e => some ("sub-config #" ++ toString idx ++ " failed validation: " ++ e)
    | none => validateSubList gw rest (idx + 1)

end

/-- Specification-side replacement function for `Update` (spec §4.3): the
caller-supplied payload with its identity, creation timestamp and child
sequence forced to the matched node's current values and its updated
timestamp set to now. -/
def forcedReplacement (u : HyprProgramConfig) (now : Int) (n : HyprProgramConfig) :
    HyprProgramConfig :=
  match u, n with
  | .mk _ t₂ p₂ ip₂ ar₂ ev₂ fc₂ dep₂ pl₂ op₂ _ _ _, .mk i _ _ _ _ _ _ _ _ _ _ ct sub =>
    .mk i t₂ p₂ ip₂ ar₂ ev₂ fc₂ dep₂ pl₂ op₂ now ct sub

/-! ## Sample data used by concrete witnesses -/

def mkLeaf (i prog : String) : HyprProgramConfig :=
  .mk i "" prog "" [] [] ⟨"", "", [], ""⟩ [] [] false 0 0 []

def mkNode (i prog : String) (sub : List HyprProgramConfig) : HyprProgramConfig :=
  .mk i "" prog "" [] [] ⟨"", "", [], ""⟩ [] [] false 0 0 sub

def samplePrivateFilter : ConfigSearchFilters :=
  ⟨"", [], "", "", some true, none, none⟩

def sampleCfg : HyprConfig where
  id := "cfg1"
  title := "sample"
  description := ""
  author := ⟨"", "", ""⟩
  programConfigs := [mkNode "a" "kitty" [mkLeaf "b" "wofi"]]
  galleryPictures := []
  ownerID := "u1"
  «private» := false
  likes := 0
  version := "1.2.3"
  tags := []
  createdTimestamp := 0
  updatedTimestamp := 0

def sampleCfgPrivate : HyprConfig := { sampleCfg with «private» := true }

def sampleCfgUpd : HyprConfig := { sampleCfg with title := "T2", «private» := true }

/-! ## Lemmas: the pointer-slice and value-slice variants agree -/

theorem removeNested_eq_filter : ∀ (l : List HyprProgramConfig) (x : String),
    removeNestedProgramConfig l x = filterSubConfigs l x
  | [], x => by simp [removeNestedProgramConfig, filterSubConfigs]
  | .mk i t p ip ar ev fc dep pl op ut ct sub :: rest, x => by
    have ih := removeNested_eq_filter rest x
    simp only [removeNestedProgramConfig, filterSubConfigs, ih]

theorem insertSub_eq_insertNested : ∀ (l : List HyprProgramConfig) (n : HyprProgramConfig)
    (pid : String), insertIntoSubConfig l n pid = insertIntoNested l n pid
  | [], n, pid => by simp [insertIntoSubConfig, insertIntoNested]
  | .mk i t p ip ar ev fc dep pl op ut ct sub :: rest, n, pid => by
    have ih := insertSub_eq_insertNested rest n pid
    simp only [insertIntoSubConfig, insertIntoNested, ih]

theorem updateRec_eq_updateSub : ∀ (l : List HyprProgramConfig) (pid : String)
    (u : HyprProgramConfig) (now : Int),
    updateProgramConfigRecursive l pid u now = updateSubConfigRecursive l pid u now
  | [], pid, u, now => by simp [updateProgramConfigRecursive, updateSubConfigRecursive]
  | .mk i t p ip ar ev fc dep pl op ut ct sub :: rest, pid, u, now => by
    have ih := updateRec_eq_updateSub rest pid u now
    simp only [updateProgramConfigRecursive, updateSubConfigRecursive, ih]

theorem extract_eq_extractNested : ∀ (l : List HyprProgramConfig) (pid : String),
    extractProgramConfig l pid = extractProgramConfigNested l pid
  | [], pid => by simp [extractProgramConfig, extractProgramConfigNested]
  | .mk i t p ip ar ev fc dep pl op ut ct sub :: rest, pid => by
    have ih := extract_eq_extractNested rest pid
    simp only [extractProgramConfig, extractProgramConfigNested, ih]

/-! ## Lemmas about removal (claims C1 and C4) -/

theorem filter_noop : ∀ (l : List HyprProgramConfig) (x : String),
    containsID l x = false → filterSubConfigs l x = l
  | [], x => by intro h; simp [filterSubConfigs]
  | .mk i t p ip ar ev fc dep pl op ut ct sub :: rest, x => by
    intro h
    by_cases hi : i = x
    · simp [containsID, hi] at h
    · simp [containsID, hi] at h
      simp [filterSubConfigs, hi, filter_noop sub x h.1, filter_noop rest x h.2]

theorem filter_eq_spec : ∀ (l : List HyprProgramConfig) (x : String),
    filterSubConfigs l x = removeSpecNodes l x
  | [], x => by simp [filterSubConfigs, removeSpecNodes]
  | .mk i t p ip ar ev fc dep pl op ut ct sub :: rest, x => by
    have ihs := filter_eq_spec sub x
    have ihr := filter_eq_spec rest x
    simp only [filterSubConfigs, removeSpecNodes, ihs, ihr]

theorem contains_filter_self : ∀ (l : List HyprProgramConfig) (x : String),
    containsID (filterSubConfigs l x) x = false
  | [], x => by simp [filterSubConfigs, containsID]
  | .mk i t p ip ar ev fc dep pl op ut ct sub :: rest, x => by
    have ihs := contains_filter_self sub x
    have ihr := contains_filter_self rest x
    by_cases hi : i = x
    · simp [filterSubConfigs, hi, ihr]
    · simp [filterSubConfigs, containsID, hi, ihs, ihr]

theorem filter_append : ∀ (l₁ l₂ : List HyprProgramConfig) (x : String),
    filterSubConfigs (l₁ ++ l₂) x = filterSubConfigs l₁ x ++ filterSubConfigs l₂ x
  | [], l₂, x => by simp [filterSubConfigs]
  | .mk i t p ip ar ev fc dep pl op ut ct sub :: rest, l₂, x => by
    have ih := filter_append rest l₂ x
    by_cases hi : i = x <;> simp [filterSubConfigs, hi, ih]

/-- C1: for every program-config tree and every target identity present in
it, the nested removal (`removeNestedProgramConfig` with
`filterSubConfigs`) deletes every node carrying the target identity
together with its entire subtree and keeps every node outside the removed
subtrees in its original sibling order: the result coincides with the
specification-side `removeSpecNodes` (which drops a matching node with its
whole subtree unexamined and preserves all other nodes in order), and no
node of the result carries the target identity. -/
theorem remove_deletes_target_subtree (l : List HyprProgramConfig) (x : String)
    (_hx : containsID l x = true) :
    removeNestedProgramConfig l x = removeSpecNodes l x ∧
    containsID (removeNestedProgramConfig l x) x = false := by
  constructor
  · rw [removeNested_eq_filter]
    exact filter_eq_spec l x
  · rw [removeNested_eq_filter]
    exact contains_filter_self l x

/-- Witness for C1 on a concrete tree: removing "b" (nested under "a",
with sibling "c") behaves as specified. -/
theorem remove_deletes_target_subtree_witness :
    containsID [mkNode "a" "kitty" [mkLeaf "b" "wofi"], mkLeaf "c" "foot"] "b" = true ∧
    (removeNestedProgramConfig [mkNode "a" "kitty" [mkLeaf "b" "wofi"], mkLeaf "c" "foot"] "b" =
      removeSpecNodes [mkNode "a" "kitty" [mkLeaf "b" "wofi"], mkLeaf "c" "foot"] "b" ∧
     containsID (removeNestedProgramConfig
       [mkNode "a" "kitty" [mkLeaf "b" "wofi"], mkLeaf "c" "foot"] "b") "b" = false) :=
  ⟨by simp [containsID, mkNode, mkLeaf],
   remove_deletes_target_subtree _ _ (by simp [containsID, mkNode, mkLeaf])⟩

/-! ## Lemmas about insertion (claims C3 and C4) -/

theorem insertNested_not_found : ∀ (l : List HyprProgramConfig) (n : HyprProgramConfig)
    (pid : String), containsID l pid = false → insertIntoNested l n pid = (l, false)
  | [], n, pid => by intro h; simp [insertIntoNested]
  | .mk i t p ip ar ev fc dep pl op ut ct sub :: rest, n, pid => by
    intro h
    by_cases hi : i = pid
    · simp [containsID, hi] at h
    · simp [containsID, hi] at h
      simp [insertIntoNested, hi, insertNested_not_found sub n pid h.1,
            insertNested_not_found rest n pid h.2]

theorem insertNested_found : ∀ (l : List HyprProgramConfig) (n : HyprProgramConfig)
    (pid : String), containsID l pid = true → (insertIntoNested l n pid).2 = true
  | [], n, pid => by intro h; simp [containsID] at h
  | .mk i t p ip ar ev fc dep pl op ut ct sub :: rest, n, pid => by
    intro h
    by_cases hi : i = pid
    · simp [insertIntoNested, hi]
    · simp [containsID, hi] at h
      by_cases hs : containsID sub pid = true
      · simp [insertIntoNested, hi, insertNested_found sub n pid hs]
      · have hs' : containsID sub pid = false := by simpa using hs
        have hr : containsID rest pid = true := by
          rcases h with h | h
          · exact absurd h hs
          · exact h
        simp [insertIntoNested, hi, insertNested_not_found sub n pid hs',
              insertNested_found rest n pid hr]

theorem filter_self_singleton (N : HyprProgramConfig) (x : String) (h : N.id = x) :
    filterSubConfigs [N] x = [] := by
  cases N with
  | mk i t p ip ar ev fc dep pl op ut ct sub =>
    simp [HyprProgramConfig.id] at h
    simp [filterSubConfigs, h]

theorem filter_insert_cancel : ∀ (l : List HyprProgramConfig) (N : HyprProgramConfig)
    (pid : String), containsID l N.id = false →
    filterSubConfigs (insertIntoNested l N pid).1 N.id = l
  | [], N, pid => by intro h; simp [insertIntoNested, filterSubConfigs]
  | .mk i t p ip ar ev fc dep pl op ut ct sub :: rest, N, pid => by
    intro h
    by_cases hi : i = N.id
    · simp [containsID, hi] at h
    · simp [containsID, hi] at h
      by_cases hp : i = pid
      · have hi' : ¬ pid = N.id := by rw [← hp]; exact hi
        simp [insertIntoNested, hp, filterSubConfigs, hi, hi', filter_append,
              filter_noop sub N.id h.1, filter_noop rest N.id h.2,
              filter_self_singleton N N.id rfl]
      · cases hin : (insertIntoNested sub N pid).2 with
        | true =>
          simp [insertIntoNested, hp, hin, filterSubConfigs, hi,
                filter_insert_cancel sub N pid h.1, filter_noop rest N.id h.2]
        | false =>
          simp [insertIntoNested, hp, hin, filterSubConfigs, hi,
                filter_noop sub N.id h.1, filter_insert_cancel rest N pid h.2]

/-- C4: for every tree `T`, node `N` with no children whose identity is
fresh for `T`, inserting `N` (either at top level, which appends, or under
any parent identity present in `T`) and then removing `N.id` yields `T`
again. -/
theorem insert_remove_roundtrip (T : List HyprProgramConfig) (N : HyprProgramConfig)
    (parentID : String) (hfresh : containsID T N.id = false)
    (_hleaf : N.subConfigs = []) :
    removeNestedProgramConfig (T ++ [N]) N.id = T ∧
    (containsID T parentID = true →
      (insertIntoSubConfig T N parentID).2 = true ∧
      removeNestedProgramConfig (insertIntoSubConfig T N parentID).1 N.id = T) := by
  constructor
  · rw [removeNested_eq_filter, filter_append, filter_noop T N.id hfresh,
        filter_self_singleton N N.id rfl]
    simp
  · intro hp
    rw [insertSub_eq_insertNested]
    exact ⟨insertNested_found T N parentID hp,
      by rw [removeNested_eq_filter]; exact filter_insert_cancel T N parentID hfresh⟩

/-- Witness for C4 on a concrete tree: inserting the fresh childless node
"n" under parent "b" (nested inside "a") and then removing "n" restores
the original tree, and likewise for a top-level insert. -/
theorem insert_remove_roundtrip_witness :
    containsID [mkNode "a" "kitty" [mkLeaf "b" "wofi"]] (mkLeaf "n" "foot").id = false ∧
    (mkLeaf "n" "foot").subConfigs = [] ∧
    containsID [mkNode "a" "kitty" [mkLeaf "b" "wofi"]] "b" = true ∧
    removeNestedProgramConfig ([mkNode "a" "kitty" [mkLeaf "b" "wofi"]] ++ [mkLeaf "n" "foot"])
      (mkLeaf "n" "foot").id = [mkNode "a" "kitty" [mkLeaf "b" "wofi"]] ∧
    (insertIntoSubConfig [mkNode "a" "kitty" [mkLeaf "b" "wofi"]] (mkLeaf "n" "foot") "b").2 = true ∧
    removeNestedProgramConfig
      (insertIntoSubConfig [mkNode "a" "kitty" [mkLeaf "b" "wofi"]] (mkLeaf "n" "foot") "b").1
      (mkLeaf "n" "foot").id = [mkNode "a" "kitty" [mkLeaf "b" "wofi"]] := by
  have h1 : containsID [mkNode "a" "kitty" [mkLeaf "b" "wofi"]] (mkLeaf "n" "foot").id = false := by
    simp [containsID, mkNode, mkLeaf, HyprProgramConfig.id]
  have h2 : (mkLeaf "n" "foot").subConfigs = [] := by
    simp [mkLeaf, HyprProgramConfig.subConfigs]
  have h3 : containsID [mkNode "a" "kitty" [mkLeaf "b" "wofi"]] "b" = true := by
    simp [containsID, mkNode, mkLeaf]
  have main := insert_remove_roundtrip [mkNode "a" "kitty" [mkLeaf "b" "wofi"]]
    (mkLeaf "n" "foot") "b" h1 h2
  exact ⟨h1, h2, h3, main.1, (main.2 h3).1, (main.2 h3).2⟩

/-! ## Lemmas about extraction (claim C3) -/

theorem extractNested_none : ∀ (l : List HyprProgramConfig) (x : String),
    containsID l x = false → (extractProgramConfigNested l x).2 = none
  | [], x => by intro h; simp [extractProgramConfigNested]
  | .mk i t p ip ar ev fc dep pl op ut ct sub :: rest, x => by
    intro h
    by_cases hi : i = x
    · simp [containsID, hi] at h
    · simp [containsID, hi] at h
      simp [extractProgramConfigNested, hi, extractNested_none sub x h.1,
            extractNested_none rest x h.2]

theorem extractNested_some : ∀ (l : List HyprProgramConfig) (x : String),
    containsID l x = true → (extractProgramConfigNested l x).2.isSome = true
  | [], x => by intro h; simp [containsID] at h
  | .mk i t p ip ar ev fc dep pl op ut ct sub :: rest, x => by
    intro h
    by_cases hi : i = x
    · simp [extractProgramConfigNested, hi]
    · simp [containsID, hi] at h
      by_cases hs : containsID sub x = true
      · obtain ⟨r, hr⟩ := Option.isSome_iff_exists.mp (extractNested_some sub x hs)
        simp [extractProgramConfigNested, hi, hr]
      · have hs' : containsID sub x = false := by simpa using hs
        have hrt : containsID rest x = true := by
          rcases h with h | h
          · exact absurd h hs
          · exact h
        obtain ⟨r, hr⟩ := Option.isSome_iff_exists.mp (extractNested_some rest x hrt)
        simp [extractProgramConfigNested, hi, extractNested_none sub x hs', hr]

/-- C3: when `MoveProgramConfig` is called with a non-empty new-parent
identity that matches no node remaining after the target is extracted, it
returns the parent-not-found error and the stored aggregate is returned
untouched — in particular its tree still contains the target node. -/
theorem move_parent_not_found (cfg : HyprConfig) (progID parent : String) (now : Int)
    (hpar : parent ≠ "")
    (htarget : containsID cfg.programConfigs progID = true)
    (hmiss : containsID (extractProgramConfig cfg.programConfigs progID).1 parent = false) :
    MoveProgramConfig cfg progID (some parent) now =
      (cfg, some ("parent program config with ID " ++ parent ++ " not found")) ∧
    containsID (MoveProgramConfig cfg progID (some parent) now).1.programConfigs progID = true := by
  obtain ⟨r, hr⟩ : ∃ r, (extractProgramConfig cfg.programConfigs progID).2 = some r := by
    rw [extract_eq_extractNested]
    exact Option.isSome_iff_exists.mp
      (extractNested_some cfg.programConfigs progID htarget)
  have hins := insertNested_not_found (extractProgramConfig cfg.programConfigs progID).1
    (r.withUpdatedTimestamp now) parent hmiss
  have hmain : MoveProgramConfig cfg progID (some parent) now =
      (cfg, some ("parent program config with ID " ++ parent ++ " not found")) := by
    simp [MoveProgramConfig, hr, hpar, insertSub_eq_insertNested, hins]
  refine ⟨hmain, ?_⟩
  rw [hmain]
  exact htarget

/-- Witness for C3: moving "b" under the absent parent "zz" in the sample
aggregate fails with the parent-not-found error without changing the
stored aggregate. -/
theorem move_parent_not_found_witness :
    containsID sampleCfg.programConfigs "b" = true ∧
    containsID (extractProgramConfig sampleCfg.programConfigs "b").1 "zz" = false ∧
    MoveProgramConfig sampleCfg "b" (some "zz") 7 =
      (sampleCfg, some "parent program config with ID zz not found") := by
  have h1 : containsID sampleCfg.programConfigs "b" = true := by
    simp [sampleCfg, containsID, mkNode, mkLeaf]
  have h2 : containsID (extractProgramConfig sampleCfg.programConfigs "b").1 "zz" = false := by
    simp [sampleCfg, extractProgramConfig, extractProgramConfigNested, containsID,
          mkNode, mkLeaf]
  have main := move_parent_not_found sampleCfg "b" "zz" 7 (by decide) h1 h2
  refine ⟨h1, h2, ?_⟩
  have := main.1
  simpa using this

/-! ## Lemmas about the recursive update (claim C2) -/

theorem replace_snd_eq_contains : ∀ (f : HyprProgramConfig → HyprProgramConfig)
    (l : List HyprProgramConfig) (pid : String),
    (replaceFirstNode f l pid).2 = containsID l pid
  | f, [], pid => by simp [replaceFirstNode, containsID]
  | f, .mk i t p ip ar ev fc dep pl op ut ct sub :: rest, pid => by
    by_cases hi : i = pid
    · simp [replaceFirstNode, containsID, hi]
    · have ihs := replace_snd_eq_contains f sub pid
      have ihr := replace_snd_eq_contains f rest pid
      by_cases hs : containsID sub pid = true
      · simp [replaceFirstNode, containsID, hi, ihs, hs]
      · have hs' : containsID sub pid = false := by simpa using hs
        simp [replaceFirstNode, containsID, hi, ihs, ihr, hs']

theorem replace_noop : ∀ (f : HyprProgramConfig → HyprProgramConfig)
    (l : List HyprProgramConfig) (pid : String),
    containsID l pid = false → replaceFirstNode f l pid = (l, false)
  | f, [], pid => by intro h; simp [replaceFirstNode]
  | f, .mk i t p ip ar ev fc dep pl op ut ct sub :: rest, pid => by
    intro h
    by_cases hi : i = pid
    · simp [containsID, hi] at h
    · simp [containsID, hi] at h
      simp [replaceFirstNode, hi, replace_noop f sub pid h.1, replace_noop f rest pid h.2]

theorem updateSub_eq_replace : ∀ (l : List HyprProgramConfig) (pid : String)
    (u : HyprProgramConfig) (now : Int),
    updateSubConfigRecursive l pid u now = replaceFirstNode (forcedReplacement u now) l pid
  | [], pid, u, now => by simp [updateSubConfigRecursive, replaceFirstNode]
  | .mk i t p ip ar ev fc dep pl op ut ct sub :: rest, pid, u, now => by
    have ihs := updateSub_eq_replace sub pid u now
    have ihr := updateSub_eq_replace rest pid u now
    by_cases hi : i = pid
    · cases u with
      | mk u1 t₂ p₂ ip₂ ar₂ ev₂ fc₂ dep₂ pl₂ op₂ ut₂ ct₂ sub₂ =>
        simp [updateSubConfigRecursive, replaceFirstNode, forcedReplacement, hi]
    · by_cases hs : containsID sub pid = true
      · have h2 : (replaceFirstNode (forcedReplacement u now) sub pid).2 = true := by
          rw [replace_snd_eq_contains]
          exact hs
        simp [updateSubConfigRecursive, replaceFirstNode, hi, ihs, h2]
      · have hs' : containsID sub pid = false := by simpa using hs
        have hnoop := replace_noop (forcedReplacement u now) sub pid hs'
        simp [updateSubConfigRecursive, replaceFirstNode, hi, ihs, ihr, hnoop]

/-- C2: the recursive update equals the specification-side "replace the
first depth-first match by the payload with identity, creation timestamp
and child sequence forced to the matched node's prior values and updated
timestamp set to now, leaving every other node unchanged"; its found flag
is exactly tree membership of the target identity; and when no node
matches, the tree is returned unchanged and the repository operation
reports not-found without writing. -/
theorem updateProgramConfig_spec (l : List HyprProgramConfig) (pid : String)
    (u : HyprProgramConfig) (now : Int) (cfg : HyprConfig) :
    updateProgramConfigRecursive l pid u now =
      replaceFirstNode (forcedReplacement u now) l pid ∧
    (updateProgramConfigRecursive l pid u now).2 = containsID l pid ∧
    (containsID l pid = false → updateProgramConfigRecursive l pid u now = (l, false)) ∧
    (containsID cfg.programConfigs pid = false →
      UpdateProgramConfigOp cfg pid u now =
        (cfg, some ("program config with ID " ++ pid ++ " not found"))) := by
  have e := updateRec_eq_updateSub l pid u now
  have r := updateSub_eq_replace l pid u now
  refine ⟨e.trans r, ?_, ?_, ?_⟩
  · rw [e, r, replace_snd_eq_contains]
  · intro h
    rw [e, r]
    exact replace_noop _ l pid h
  · intro h
    have h0 : updateProgramConfigRecursive cfg.programConfigs pid u now =
        (cfg.programConfigs, false) := by
      rw [updateRec_eq_updateSub, updateSub_eq_replace]
      exact replace_noop _ _ pid h
    simp [UpdateProgramConfigOp, h0]

/-- Witness for C2: updating the absent identity "zz" leaves a concrete
tree unchanged and makes the repository operation report not-found. -/
theorem updateProgramConfig_spec_witness :
    containsID [mkLeaf "a" "kitty"] "zz" = false ∧
    updateProgramConfigRecursive [mkLeaf "a" "kitty"] "zz" (mkLeaf "x" "wofi") 5 =
      ([mkLeaf "a" "kitty"], false) ∧
    UpdateProgramConfigOp sampleCfg "zz" (mkLeaf "x" "wofi") 5 =
      (sampleCfg, some "program config with ID zz not found") := by
  have h : containsID [mkLeaf "a" "kitty"] "zz" = false := by simp [containsID, mkLeaf]
  have h2 : containsID sampleCfg.programConfigs "zz" = false := by
    simp [sampleCfg, containsID, mkNode, mkLeaf]
  have main := updateProgramConfig_spec [mkLeaf "a" "kitty"] "zz" (mkLeaf "x" "wofi") 5 sampleCfg
  refine ⟨h, main.2.2.1 h, ?_⟩
  have := main.2.2.2 h2
  simpa using this

/-! ## Lemmas about deduplication (claim C5) -/

theorem dedupAux_not_mem : ∀ (seen l : List String) (x : String),
    x ∈ dedupAux seen l → seen.contains x = false
  | seen, [], x => by intro h; simp [dedupAux] at h
  | seen, y :: rest, x => by
    intro h
    by_cases hy : seen.contains y = true
    · rw [dedupAux, if_pos hy] at h
      exact dedupAux_not_mem seen rest x h
    · rw [dedupAux, if_neg hy] at h
      rcases List.mem_cons.mp h with rfl | h
      · simpa using hy
      · have := dedupAux_not_mem (y :: seen) rest x h
        simp only [List.contains_cons, Bool.or_eq_false_iff] at this
        exact this.2

theorem dedupAux_nodup : ∀ (seen l : List String), (dedupAux seen l).Nodup
  | seen, [] => by simp [dedupAux]
  | seen, y :: rest => by
    by_cases hy : seen.contains y = true
    · rw [dedupAux, if_pos hy]
      exact dedupAux_nodup seen rest
    · rw [dedupAux, if_neg hy, List.nodup_cons]
      refine ⟨fun hmem => ?_, dedupAux_nodup (y :: seen) rest⟩
      have := dedupAux_not_mem (y :: seen) rest y hmem
      simp at this

/-- C5: on the specified input the extractor returns exactly
`["kitty", "firefox"]` (the `$term` variable substituted, the commented
directive contributing nothing); a second occurrence of `kitty` adds no
duplicate; and in general the returned sequence carries no duplicates. -/
theorem extract_exec_once_spec :
    ExtractExecOnceCommands
      "$term = kitty\nexec-once = $term --workdir ~\nexec = firefox &\n# exec = ignored" =
      ["kitty", "firefox"] ∧
    ExtractExecOnceCommands
      "$term = kitty\nexec-once = $term --workdir ~\nexec = firefox &\n# exec = ignored\nexec = kitty &" =
      ["kitty", "firefox"] ∧
    ∀ s : String, (ExtractExecOnceCommands s).Nodup := by
  refine ⟨by decide, by decide, fun s => ?_⟩
  simp only [ExtractExecOnceCommands, DeduplicateStrings]
  exact dedupAux_nodup _ _

/-! ## Validator theorems (claim C6) -/

/-- C6 counterexample: a node whose declared program "kitty" is statically
whitelisted and which carries no file content can still fail validation
under a denying gateway (its sub-config's program is consulted), so its
validation outcome is not gateway-independent. -/
theorem validate_whitelisted_node_can_fail :
    validProgramsList.contains (mkNode "k" "kitty" [mkLeaf "u" "unknownapp"]).program = true ∧
    (mkNode "k" "kitty" [mkLeaf "u" "unknownapp"]).fileContent.data = "" ∧
    pcValidate (fun _ => some "not found") (mkNode "k" "kitty" [mkLeaf "u" "unknownapp"]) ≠
      none := by
  refine ⟨by simp [mkNode, HyprProgramConfig.program, validProgramsList],
    by simp [mkNode, HyprProgramConfig.fileContent], ?_⟩
  simp [pcValidate, validateSubList, mkNode, mkLeaf, validProgramsList]

/-- C6 (amended): a node whose program is outside the static whitelist
fails with an error naming that program whenever the gateway reports it
missing (whatever its file content or children); a node whose program is
statically whitelisted, carrying no file content and no sub-configs,
validates successfully under every gateway. -/
theorem validate_program_checks (gw gw' : Gateway) (n : HyprProgramConfig) (e : String) :
    (validProgramsList.contains n.program = false → gw n.program = some e →
      pcValidate gw n = some ("invalid or unsupported program name: " ++ n.program)) ∧
    (validProgramsList.contains n.program = true → n.fileContent.data = "" →
      n.subConfigs = [] →
      pcValidate gw n = none ∧ pcValidate gw n = pcValidate gw' n) := by
  cases n with
  | mk i t p ip ar ev fc dep pl op ut ct sub =>
    constructor
    · intro hc hg
      simp only [HyprProgramConfig.program] at hc hg
      have hc' : p ∉ validProgramsList := by simpa using hc
      simp [pcValidate, hc', hg, HyprProgramConfig.program]
    · intro hc hd hsub
      simp only [HyprProgramConfig.program] at hc
      simp only [HyprProgramConfig.fileContent] at hd
      simp only [HyprProgramConfig.subConfigs] at hsub
      subst hsub
      have hc' : p ∈ validProgramsList := by simpa using hc
      constructor
      · simp [pcValidate, hc', hd, validateSubList]
      · simp [pcValidate, hc', hd, validateSubList]

/-- Witness for C6's amended statement at concrete nodes and gateways. -/
theorem validate_program_checks_witness :
    validProgramsList.contains (mkLeaf "u" "unknownapp").program = false ∧
    pcValidate (fun _ => some "not found") (mkLeaf "u" "unknownapp") =
      some "invalid or unsupported program name: unknownapp" ∧
    validProgramsList.contains (mkLeaf "a" "kitty").program = true ∧
    (mkLeaf "a" "kitty").fileContent.data = "" ∧
    (mkLeaf "a" "kitty").subConfigs = [] ∧
    pcValidate (fun _ => some "not found") (mkLeaf "a" "kitty") = none ∧
    pcValidate (fun _ => some "not found") (mkLeaf "a" "kitty") =
      pcValidate (fun _ => none) (mkLeaf "a" "kitty") := by
  have h1 : validProgramsList.contains (mkLeaf "u" "unknownapp").program = false := by
    simp [mkLeaf, HyprProgramConfig.program, validProgramsList]
  have h2 : (fun _ : String => (some "not found" : Option String))
      (mkLeaf "u" "unknownapp").program = some "not found" := rfl
  have h4 : validProgramsList.contains (mkLeaf "a" "kitty").program = true := by
    simp [mkLeaf, HyprProgramConfig.program, validProgramsList]
  have h5 : (mkLeaf "a" "kitty").fileContent.data = "" := by
    simp [mkLeaf, HyprProgramConfig.fileContent]
  have h6 : (mkLeaf "a" "kitty").subConfigs = [] := by
    simp [mkLeaf, HyprProgramConfig.subConfigs]
  have m1 := (validate_program_checks (fun _ => some "not found") (fun _ => none)
    (mkLeaf "u" "unknownapp") "not found").1 h1 h2
  have m2 := (validate_program_checks (fun _ => some "not found") (fun _ => none)
    (mkLeaf "a" "kitty") "not found").2 h4 h5 h6
  refine ⟨h1, ?_, h4, h5, h6, m2.1, m2.2⟩
  simpa [mkLeaf, HyprProgramConfig.program] using m1

/-! ## Search-predicate theorems (claim C7) -/

/-- C7: the predicate produced by the search-predicate builder evaluates to
false on every aggregate whose privacy flag is set and whose owner differs
from the caller's identity — whatever the filter specification, including
a filter explicitly requesting private aggregates — and likewise on every
private aggregate when no caller identity is available. -/
theorem search_visibility (filters : ConfigSearchFilters) (user : Option UserSessionData)
    (cfg : HyprConfig) (hpriv : cfg.private = true)
    (howner : ∀ u, user = some u → cfg.ownerID ≠ u.userID) :
    filterMatches cfg (buildSearchFilter filters user) = false := by
  cases user with
  | none =>
    simp [buildSearchFilter, filterMatches, allFiltersMatch, anyFilterMatches, hpriv]
  | some u =>
    have h := howner u rfl
    simp [buildSearchFilter, filterMatches, allFiltersMatch, anyFilterMatches, hpriv, h]

/-- Witness for C7: a private aggregate owned by "u1" is excluded for the
caller "u2" even though the filter explicitly requests private entries. -/
theorem search_visibility_witness :
    sampleCfgPrivate.private = true ∧
    filterMatches sampleCfgPrivate
      (buildSearchFilter samplePrivateFilter (some ⟨"u2", []⟩)) = false := by
  have hpriv : sampleCfgPrivate.private = true := rfl
  have howner : ∀ u : UserSessionData,
      (some ⟨"u2", []⟩ : Option UserSessionData) = some u →
      sampleCfgPrivate.ownerID ≠ u.userID := by
    intro u hu
    cases hu
    decide
  exact ⟨hpriv, search_visibility samplePrivateFilter _ sampleCfgPrivate hpriv howner⟩

/-! ## Lemmas about `bson.M` field sets (claims C8 and C9) -/

theorem bsonLookup_set_self : ∀ (m : List (String × BVal)) (k : String) (v : BVal),
    bsonLookup (bsonSet m k v) k = some v
  | [], k, v => by simp [bsonSet, bsonLookup]
  | (k', w) :: rest, k, v => by
    by_cases h : k' = k
    · simp [bsonSet, bsonLookup, h]
    · simp [bsonSet, bsonLookup, h, bsonLookup_set_self rest k v]

theorem bsonLookup_set_other : ∀ (m : List (String × BVal)) (k' k : String) (v : BVal),
    k' ≠ k → bsonLookup (bsonSet m k' v) k = bsonLookup m k
  | [], k', k, v => by intro h; simp [bsonSet, bsonLookup, h]
  | (k₀, w) :: rest, k', k, v => by
    intro h
    by_cases h0 : k₀ = k'
    · subst h0
      simp [bsonSet, bsonLookup, h]
    · simp [bsonSet, bsonLookup, h0, bsonLookup_set_other rest k' k v h]

theorem bsonLookup_delete_other : ∀ (m : List (String × BVal)) (k' k : String),
    k' ≠ k → bsonLookup (bsonDelete m k') k = bsonLookup m k
  | [], k', k => by intro h; simp [bsonDelete]
  | (k₀, w) :: rest, k', k => by
    intro h
    by_cases h0 : k₀ = k'
    · have hk : k₀ ≠ k := by rw [h0]; exact h
      simp [bsonDelete, bsonLookup, h0, hk, h, bsonLookup_delete_other rest k' k h]
    · simp [bsonDelete, bsonLookup, h0, bsonLookup_delete_other rest k' k h]

/-- C8: `bumpPatchVersion` maps "1.2.3" to "1.2.4"; on every version of
exactly three dot-separated components whose patch component parses, it
keeps the major and minor components and increments the patch by exactly
one; every input without exactly three components maps to "0.0.1"; and the
field set a successful `UpdateConfig` writes always carries the bumped
stored version under the "version" key. -/
theorem bump_patch_version_spec :
    bumpPatchVersion "1.2.3" = "1.2.4" ∧
    (∀ (v : String) (n : Int), (goSplitDots v).length = 3 →
      goAtoi ((goSplitDots v).getD 2 "") = some n →
      bumpPatchVersion v =
        (goSplitDots v).getD 0 "" ++ "." ++ (goSplitDots v).getD 1 "" ++ "." ++
          toString (n + 1)) ∧
    (∀ v : String, (goSplitDots v).length ≠ 3 → bumpPatchVersion v = "0.0.1") ∧
    (∀ (existing : HyprConfig) (updates : List (String × BVal)) (now : Int),
      bsonLookup (prepareUpdateSet existing updates now) "version" =
        some (.str (bumpPatchVersion existing.version))) := by
  refine ⟨by decide, ?_, ?_, ?_⟩
  · intro v n h3 hn
    obtain ⟨a, b, c, habc⟩ := List.length_eq_three.mp h3
    rw [habc] at hn
    simp only [List.getD_cons_succ, List.getD_cons_zero] at hn
    simp [bumpPatchVersion, habc, hn]
  · intro v h
    simp [bumpPatchVersion, h]
  · intro existing updates now
    simp only [prepareUpdateSet]
    rw [bsonLookup_delete_other _ _ _ (by decide),
        bsonLookup_delete_other _ _ _ (by decide),
        bsonLookup_delete_other _ _ _ (by decide),
        bsonLookup_delete_other _ _ _ (by decide),
        bsonLookup_delete_other _ _ _ (by decide),
        bsonLookup_set_other _ _ _ _ (by decide),
        bsonLookup_set_self]

/-- Witness for C8 at the concrete version "7.4.9". -/
theorem bump_patch_version_witness :
    (goSplitDots "7.4.9").length = 3 ∧
    goAtoi ((goSplitDots "7.4.9").getD 2 "") = some 9 ∧
    bumpPatchVersion "7.4.9" = "7.4.10" ∧
    bsonLookup (prepareUpdateSet sampleCfg [] 3) "version" =
      some (.str (bumpPatchVersion sampleCfg.version)) := by
  refine ⟨by decide, by decide, ?_, bump_patch_version_spec.2.2.2 sampleCfg [] 3⟩
  have h := bump_patch_version_spec.2.1 "7.4.9" 9 (by decide) (by decide)
  rw [h]
  decide

/-- C9: whenever the caller-supplied privacy flag differs from the stored
one, the field set the whole-config update handler passes to the
repository maps the "private" key to the caller-supplied title string (the
source writes the title value into the private field in this path). -/
theorem handler_private_gets_title (body existing : HyprConfig)
    (h : body.private ≠ existing.private) :
    bsonLookup (buildUpdateFields body existing) "private" = some (.str body.title) := by
  simp only [buildUpdateFields]
  split_ifs <;> simp_all [bsonLookup]

/-- Witness for C9: a payload toggling privacy (with title "T2") produces a
field set whose "private" entry holds the string "T2". -/
theorem handler_private_gets_title_witness :
    sampleCfgUpd.private ≠ sampleCfg.private ∧
    bsonLookup (buildUpdateFields sampleCfgUpd sampleCfg) "private" =
      some (.str "T2") := by
  have h : sampleCfgUpd.private ≠ sampleCfg.private := by decide
  exact ⟨h, handler_private_gets_title sampleCfgUpd sampleCfg h⟩

/-! ## Lemmas about favorites and like counters (claim C10) -/

theorem countFavorites_cons (a b cid : String) (rest : List (String × String)) :
    countFavorites ((a, b) :: rest) cid =
      countFavorites rest cid + (if b = cid then 1 else 0) := by
  by_cases hb : b = cid
  · simp [countFavorites, List.filter_cons, hb]
  · simp [countFavorites, List.filter_cons, hb]

theorem count_append_single (favs : List (String × String)) (u c cid : String) :
    countFavorites (favs ++ [(u, c)]) cid =
      countFavorites favs cid + (if c = cid then 1 else 0) := by
  by_cases hc : c = cid <;> simp [countFavorites, List.filter_append, List.filter, hc]

theorem incLikes_all : ∀ (likes : List (String × Int)) (g g' : String → Int) (c : String)
    (δ : Int), (likes.map Prod.fst).Nodup →
    likes.all (fun e => e.2 = g e.1) = true →
    (∀ k, g' k = if k = c then g k + δ else g k) →
    (incLikes likes c δ).all (fun e => e.2 = g' e.1) = true
  | [], g, g', c, δ => by intro _ _ _; simp [incLikes]
  | (k0, n) :: rest, g, g', c, δ => by
    intro hnd hall hrel
    simp only [List.map_cons, List.nodup_cons] at hnd
    simp only [List.all_cons, Bool.and_eq_true] at hall
    have hn : n = g k0 := by simpa using hall.1
    by_cases hk : k0 = c
    · simp only [incLikes, if_pos hk, List.all_cons, Bool.and_eq_true]
      constructor
      · simp [hrel, hk, hn]
      · refine List.all_eq_true.mpr ?_
        intro e he
        have hne : e.1 ≠ k0 := by
          intro hcontra
          exact hnd.1 (hcontra ▸ List.mem_map_of_mem Prod.fst he)
        have hec : e.1 ≠ c := by
          rw [← hk]
          exact hne
        have he2 : e.2 = g e.1 := by simpa using (List.all_eq_true.mp hall.2) e he
        simp [hrel e.1, hec, he2]
    · simp only [incLikes, if_neg hk, List.all_cons, Bool.and_eq_true]
      refine ⟨?_, incLikes_all rest g g' c δ hnd.2 hall.2 hrel⟩
      simp [hrel k0, hk, hn]

theorem deleteOne_not_mem : ∀ (favs : List (String × String)) (u c : String),
    (u, c) ∉ favs → deleteOneFavorite favs u c = (favs, 0)
  | [], u, c => by intro h; simp [deleteOneFavorite]
  | (a, b) :: rest, u, c => by
    intro h
    simp only [List.mem_cons, not_or] at h
    have hne : ¬ (a = u ∧ b = c) := by
      intro hab
      exact h.1 (by simp [hab.1, hab.2])
    simp [deleteOneFavorite, hne, deleteOne_not_mem rest u c h.2]

theorem deleteOne_res : ∀ (favs : List (String × String)) (u c : String),
    (deleteOneFavorite favs u c).2 = 0 ∨ (deleteOneFavorite favs u c).2 = 1
  | [], u, c => by simp [deleteOneFavorite]
  | (a, b) :: rest, u, c => by
    by_cases hab : a = u ∧ b = c
    · simp [deleteOneFavorite, hab]
    · simpa [deleteOneFavorite, hab] using deleteOne_res rest u c

theorem deleteOne_count : ∀ (favs : List (String × String)) (u c cid : String),
    (deleteOneFavorite favs u c).2 = 1 →
    countFavorites favs cid =
      countFavorites (deleteOneFavorite favs u c).1 cid + (if c = cid then 1 else 0)
  | [], u, c, cid => by intro h; simp [deleteOneFavorite] at h
  | (a, b) :: rest, u, c, cid => by
    intro h
    by_cases hab : a = u ∧ b = c
    · obtain ⟨ha, hb⟩ := hab
      subst ha
      subst hb
      simp [deleteOneFavorite, countFavorites_cons, Nat.add_comm]
    · have h' : (deleteOneFavorite rest u c).2 = 1 := by
        simpa [deleteOneFavorite, hab] using h
      have ih := deleteOne_count rest u c cid h'
      have hd : (deleteOneFavorite ((a, b) :: rest) u c).1 =
          (a, b) :: (deleteOneFavorite rest u c).1 := by
        simp [deleteOneFavorite, hab]
      rw [hd, countFavorites_cons, countFavorites_cons, ih]
      omega

/-- C10: `FavoriteConfig` and `UnfavoriteConfig` jointly preserve the
invariant that every stored aggregate's like counter equals the number of
favorite records referencing it; favoriting an already-favorited pair and
unfavoriting a non-favorited pair both succeed leaving the state exactly
as it was. -/
theorem favorites_like_invariant (st : FavoritesState) (u c : String)
    (hkeys : (st.likes.map Prod.fst).Nodup) :
    (likesInvariant st = true → likesInvariant (FavoriteConfig st u c) = true) ∧
    (likesInvariant st = true → likesInvariant (UnfavoriteConfig st u c) = true) ∧
    ((u, c) ∈ st.favorites → FavoriteConfig st u c = st) ∧
    ((u, c) ∉ st.favorites → UnfavoriteConfig st u c = st) := by
  obtain ⟨favs, likes⟩ := st
  simp only at hkeys
  refine ⟨?_, ?_, ?_, ?_⟩
  · intro hinv
    by_cases hmem : (u, c) ∈ favs
    · simpa [FavoriteConfig, hmem] using hinv
    · simp only [FavoriteConfig, if_neg hmem]
      simp only [likesInvariant] at hinv ⊢
      refine incLikes_all likes (fun k => (countFavorites favs k : Int))
        (fun k => (countFavorites (favs ++ [(u, c)]) k : Int)) c 1 hkeys hinv ?_
      intro k
      show (countFavorites (favs ++ [(u, c)]) k : Int) =
        if k = c then (countFavorites favs k : Int) + 1 else (countFavorites favs k : Int)
      rw [count_append_single favs u c k]
      by_cases hkc : k = c
      · rw [if_pos hkc.symm, if_pos hkc]
        push_cast
        ring
      · rw [if_neg (fun hh => hkc hh.symm), if_neg hkc]
        simp
  · intro hinv
    by_cases h0 : (deleteOneFavorite favs u c).2 = 0
    · simpa [UnfavoriteConfig, h0] using hinv
    · have h1 : (deleteOneFavorite favs u c).2 = 1 := by
        rcases deleteOne_res favs u c with h | h
        · exact absurd h h0
        · exact h
      simp only [UnfavoriteConfig, if_neg h0]
      simp only [likesInvariant] at hinv ⊢
      refine incLikes_all likes (fun k => (countFavorites favs k : Int))
        (fun k => (countFavorites (deleteOneFavorite favs u c).1 k : Int)) c (-1)
        hkeys hinv ?_
      intro k
      have hc := deleteOne_count favs u c k h1
      show (countFavorites (deleteOneFavorite favs u c).1 k : Int) =
        if k = c then (countFavorites favs k : Int) + (-1) else (countFavorites favs k : Int)
      by_cases hkc : k = c
      · rw [if_pos hkc.symm] at hc
        rw [if_pos hkc]
        omega
      · rw [if_neg (fun hh => hkc hh.symm)] at hc
        rw [if_neg hkc]
        omega
  · intro hmem
    simp [FavoriteConfig, hmem]
  · intro hmem
    simp [UnfavoriteConfig, deleteOne_not_mem favs u c hmem]

/-- Witness for C10 on a concrete state: one favorite record for "c1" and a
like counter of 1. -/
theorem favorites_like_invariant_witness :
    (([("c1", (1 : Int))] : List (String × Int)).map Prod.fst).Nodup ∧
    likesInvariant ⟨[("u1", "c1")], [("c1", 1)]⟩ = true ∧
    likesInvariant (FavoriteConfig ⟨[("u1", "c1")], [("c1", 1)]⟩ "u2" "c1") = true ∧
    likesInvariant (UnfavoriteConfig ⟨[("u1", "c1")], [("c1", 1)]⟩ "u1" "c1") = true ∧
    FavoriteConfig ⟨[("u1", "c1")], [("c1", 1)]⟩ "u1" "c1" = ⟨[("u1", "c1")], [("c1", 1)]⟩ ∧
    UnfavoriteConfig ⟨[("u1", "c1")], [("c1", 1)]⟩ "u2" "c1" =
      ⟨[("u1", "c1")], [("c1", 1)]⟩ := by
  have hkeys : (([("c1", (1 : Int))] : List (String × Int)).map Prod.fst).Nodup := by simp
  have hinv : likesInvariant ⟨[("u1", "c1")], [("c1", 1)]⟩ = true := by decide
  have m1 := favorites_like_invariant ⟨[("u1", "c1")], [("c1", 1)]⟩ "u2" "c1" hkeys
  have m2 := favorites_like_invariant ⟨[("u1", "c1")], [("c1", 1)]⟩ "u1" "c1" hkeys
  exact ⟨hkeys, hinv, m1.1 hinv, m2.2.1 hinv, m2.2.2.1 (by decide), m1.2.2.2 (by decide)⟩

end HyprCfg
